import Mathlib

/-!
Verification of the Poisson-arrival dispatch strategy
(clusterloader2/pkg/tuningset/poisson_load.go) and of the etcd metrics
measurement dispatcher (clusterloader2/pkg/measurement/common/etcd_metrics.go).

Modelling conventions:
* Go `time.Duration` and `time.Time` values are nanosecond counts, embedded
  as unbounded integers `ℤ`.
* Go `float64` arithmetic inside `interArrivalTime` is embedded as exact
  real arithmetic over `ℝ`; `math.Log` is `Real.log` and `rand.Float64()`
  becomes an explicit parameter `p` ranging over `[0, 1)`.
* The Go conversion `int(x)` from `float64` truncates toward zero; it is
  embedded as `goTrunc`.
* The dispatch loop of `poissonLoad.Execute` is embedded twice, over the
  same step function `execStep`: as the arithmetic state recursion
  `loopState` (the pair `(now, actionNextLaunch)` at the head of each loop
  iteration) and as the event trace `driveTrace` emitted by the driving
  goroutine (sleep, launch, final `wg.Wait` return).  Loop-body overhead
  (the wall time consumed by `wg.Start` and the sample computation) is an
  arbitrary per-iteration integer stream `overhead`.
* `wait.Group` is embedded by its counter semantics: `Start` increments,
  an action's completion decrements, and `Wait` returns only when the
  counter is zero.
-/

namespace PoissonLoad

/-- Go `int(x)` conversion from `float64`: truncation toward zero. -/
noncomputable def goTrunc (x : ℝ) : ℤ :=
  if 0 ≤ x then ⌊x⌋ else ⌈x⌉

/-- `float64(time.Second)`: one second expressed in nanoseconds, the unit of
`time.Duration`. -/
def secondNs : ℝ := 1000000000

/-- Embedding of `interArrivalTime` from poisson_load.go.  The uniform draw
`p := rand.Float64()` is passed as the parameter `p`; the function returns
`time.Duration(int(float64(time.Second) * (-math.Log(1-p) / MeanRate)))`
as an integer count of nanoseconds. -/
noncomputable def interArrivalTime (MeanRate : ℝ) (p : ℝ) : ℤ :=
  goTrunc (secondNs * (-Real.log (1 - p) / MeanRate))

/-- Spec-side sampler, written from the spec's words: the exponential
inverse-CDF sample `duration = -ln(1 - p) / meanRate`, in seconds. -/
noncomputable def specExpSample (meanRate : ℝ) (p : ℝ) : ℝ :=
  -Real.log (1 - p) / meanRate

/-- The real number fed to the truncation is non-negative whenever
`0 < r` and `0 ≤ p < 1`. -/
lemma sample_arg_nonneg (r p : ℝ) (hr : 0 < r) (hp0 : 0 ≤ p) (hp1 : p < 1) :
    0 ≤ secondNs * (-Real.log (1 - p) / r) := by
  have h1 : (0 : ℝ) < 1 - p := by linarith
  have h2 : 1 - p ≤ 1 := by linarith
  have hlog : Real.log (1 - p) ≤ 0 := Real.log_nonpos (le_of_lt h1) h2
  have hnum : 0 ≤ -Real.log (1 - p) := by linarith
  have hdiv : 0 ≤ -Real.log (1 - p) / r := div_nonneg hnum (le_of_lt hr)
  have hsec : (0 : ℝ) ≤ secondNs := by norm_num [secondNs]
  exact mul_nonneg hsec hdiv

/-- On non-negative inputs Go truncation toward zero agrees with floor. -/
lemma goTrunc_of_nonneg {x : ℝ} (h : 0 ≤ x) : goTrunc x = ⌊x⌋ := by
  simp [goTrunc, h]

end PoissonLoad

namespace PoissonLoad

/-- Go `time.Until(t)` at wall-clock instant `now`: `t.Sub(time.Now())`. -/
def timeUntil (t : ℤ) (now : ℤ) : ℤ := t - now

/-- Wall time for which Go `time.Sleep(d)` suspends the caller: a negative
or zero duration returns immediately, otherwise it blocks for `d`. -/
def goSleep (d : ℤ) : ℤ := max 0 d

/-- One iteration of the dispatch loop of `poissonLoad.Execute`, acting on
the state `(now, actionNextLaunch)` held at the head of iteration `i`:
the loop sleeps until `actionNextLaunch` (so the wall clock advances to
`max now actionNextLaunch`), launches `actions[i]`, spends `overhead i`
wall time on the loop body (`wg.Start` plus the sample computation), and
advances `actionNextLaunch` by the freshly drawn sample `sample i`. -/
def execStep (sample : ℕ → ℤ) (overhead : ℕ → ℤ) (i : ℕ) (s : ℤ × ℤ) :
    ℤ × ℤ :=
  (s.1 + goSleep (timeUntil s.2 s.1) + overhead i, s.2 + sample i)

/-- State `(now, actionNextLaunch)` at the head of iteration `i` of the
dispatch loop, seeded with `actionNextLaunch = time.Now() = t0` before the
first iteration. -/
def loopState (sample : ℕ → ℤ) (overhead : ℕ → ℤ) (t0 : ℤ) : ℕ → ℤ × ℤ
  | 0 => (t0, t0)
  | i + 1 => execStep sample overhead i (loopState sample overhead t0 i)

/-- The wall-clock instant at which `wg.Start(actions[i])` runs: the value
of the clock right after the sleep of iteration `i`. -/
def launchInstant (sample : ℕ → ℤ) (overhead : ℕ → ℤ) (t0 : ℤ) (i : ℕ) :
    ℤ :=
  (loopState sample overhead t0 i).1 +
    goSleep (timeUntil (loopState sample overhead t0 i).2
      (loopState sample overhead t0 i).1)

/-- Wall time for which iteration `i`'s `time.Sleep(time.Until(...))`
suspends the driving goroutine. -/
def sleepDur (sample : ℕ → ℤ) (overhead : ℕ → ℤ) (t0 : ℤ) (i : ℕ) : ℤ :=
  goSleep (timeUntil (loopState sample overhead t0 i).2
    (loopState sample overhead t0 i).1)

lemma launchInstant_eq_max (sample overhead : ℕ → ℤ) (t0 : ℤ) (i : ℕ) :
    launchInstant sample overhead t0 i
      = max (loopState sample overhead t0 i).1
          (loopState sample overhead t0 i).2 := by
  unfold launchInstant goSleep timeUntil
  omega

lemma loopState_now_succ (sample overhead : ℕ → ℤ) (t0 : ℤ) (i : ℕ) :
    (loopState sample overhead t0 (i + 1)).1
      = launchInstant sample overhead t0 i + overhead i := by
  simp [loopState, execStep, launchInstant]

/-- C1: for every mean rate and every uniform draw `p`, `interArrivalTime`
returns exactly the spec's exponential inverse-CDF sample `-ln(1-p)/r`
seconds, converted to the implementation's duration unit (nanoseconds,
truncated toward zero to an integral `time.Duration`). -/
theorem interArrivalTime_eq_spec (r p : ℝ) :
    interArrivalTime r p = goTrunc (1000000000 * specExpSample r p) := by
  simp [interArrivalTime, specExpSample, secondNs]

/-- C2: for every uniform draw `p ∈ [0,1)` and mean rate `r > 0`, the
duration returned by `interArrivalTime` is non-negative. -/
theorem interArrivalTime_nonneg (r p : ℝ) (hr : 0 < r) (hp0 : 0 ≤ p)
    (hp1 : p < 1) : 0 ≤ interArrivalTime r p := by
  have harg := sample_arg_nonneg r p hr hp0 hp1
  rw [interArrivalTime, goTrunc_of_nonneg harg]
  exact Int.floor_nonneg.mpr harg

/-- C2 witness: at rate 1 and draw 0 the hypotheses hold and the returned
duration is non-negative. -/
theorem interArrivalTime_nonneg_witness :
    (0 : ℝ) < 1 ∧ (0 : ℝ) ≤ 0 ∧ (0 : ℝ) < 1 ∧ 0 ≤ interArrivalTime 1 0 :=
  ⟨by norm_num, le_refl 0, by norm_num,
    interArrivalTime_nonneg 1 0 (by norm_num) (le_refl 0) (by norm_num)⟩

/-- C9: for every uniform draw `p ∈ [0,1)` and mean rate `r > 0`, the
returned duration is the exact real-valued sample expressed in nanoseconds
and truncated toward zero (floor, as the value is non-negative): it is at
most the exact sample and differs from it by less than one nanosecond. -/
theorem interArrivalTime_quantization (r p : ℝ) (hr : 0 < r) (hp0 : 0 ≤ p)
    (hp1 : p < 1) :
    interArrivalTime r p = ⌊1000000000 * specExpSample r p⌋ ∧
    (interArrivalTime r p : ℝ) ≤ 1000000000 * specExpSample r p ∧
    1000000000 * specExpSample r p - (interArrivalTime r p : ℝ) < 1 := by
  have harg := sample_arg_nonneg r p hr hp0 hp1
  have hsec : secondNs * (-Real.log (1 - p) / r)
      = 1000000000 * specExpSample r p := by
    simp [secondNs, specExpSample]
  have hfl : interArrivalTime r p = ⌊1000000000 * specExpSample r p⌋ := by
    rw [interArrivalTime, goTrunc_of_nonneg harg, hsec]
  refine ⟨hfl, ?_, ?_⟩
  · rw [hfl]; exact Int.floor_le _
  · rw [hfl]
    have := Int.lt_floor_add_one (1000000000 * specExpSample r p)
    linarith

/-- C9 witness: at rate 1 and draw 0 the hypotheses hold; the exact sample
is 0 seconds and the returned duration is 0 nanoseconds. -/
theorem interArrivalTime_quantization_witness :
    (0 : ℝ) < 1 ∧ (0 : ℝ) ≤ 0 ∧ (0 : ℝ) < 1 ∧
    (interArrivalTime 1 0 = ⌊(1000000000 : ℝ) * specExpSample 1 0⌋ ∧
      (interArrivalTime 1 0 : ℝ) ≤ 1000000000 * specExpSample 1 0 ∧
      1000000000 * specExpSample 1 0 - (interArrivalTime 1 0 : ℝ) < 1) :=
  ⟨by norm_num, le_refl 0, by norm_num,
    interArrivalTime_quantization 1 0 (by norm_num) (le_refl 0) (by norm_num)⟩

lemma loopState_nextLaunch (sample overhead : ℕ → ℤ) (t0 : ℤ) (i : ℕ) :
    (loopState sample overhead t0 i).2
      = t0 + ∑ k ∈ Finset.range i, sample k := by
  induction i with
  | zero => simp [loopState]
  | succ n ih =>
      simp only [loopState, execStep]
      rw [ih, Finset.sum_range_succ]
      ring

/-- C3: the intended launch instant accumulates as
`next = previous + sample`, seeded with `time.Now()`: before iteration `i`
the loop's `actionNextLaunch` equals the start instant plus the sum of the
first `i` inter-arrival samples, whatever wall time the loop body itself
consumed. -/
theorem nextLaunch_is_schedule (sample overhead : ℕ → ℤ) (t0 : ℤ) (i : ℕ) :
    (loopState sample overhead t0 i).2
        = t0 + ∑ k ∈ Finset.range i, sample k ∧
    ∀ overhead₂ : ℕ → ℤ,
      (loopState sample overhead t0 i).2
        = (loopState sample overhead₂ t0 i).2 := by
  refine ⟨loopState_nextLaunch sample overhead t0 i, fun overhead₂ => ?_⟩
  rw [loopState_nextLaunch sample overhead t0 i,
    loopState_nextLaunch sample overhead₂ t0 i]

/-- C6: launch instants are non-decreasing: when each loop iteration's body
consumes a non-negative amount of wall time, action `i + 1` is launched no
earlier than action `i`. -/
theorem launchInstant_mono (sample overhead : ℕ → ℤ) (t0 : ℤ)
    (h : ∀ i, 0 ≤ overhead i) (i : ℕ) :
    launchInstant sample overhead t0 i
      ≤ launchInstant sample overhead t0 (i + 1) := by
  rw [launchInstant_eq_max sample overhead t0 (i + 1),
    loopState_now_succ sample overhead t0 i]
  have hov := h i
  exact le_trans (by omega) (le_max_left _ _)

/-- C6 witness: with zero samples and zero overhead, starting at instant 0,
the first two launch instants are in order. -/
theorem launchInstant_mono_witness :
    (∀ i : ℕ, (0 : ℤ) ≤ (fun _ : ℕ => (0 : ℤ)) i) ∧
    launchInstant (fun _ => 0) (fun _ => 0) 0 0
      ≤ launchInstant (fun _ => 0) (fun _ => 0) 0 1 :=
  ⟨fun _ => le_refl 0,
    launchInstant_mono (fun _ => 0) (fun _ => 0) 0 (fun _ => le_refl 0) 0⟩

/-- C7: iteration `i` of the dispatch loop suspends the driving goroutine
for exactly `max 0 (actionNextLaunch - now)`; in particular when the
computed launch instant is already in the past the sleep is a no-op. -/
theorem sleep_exact (sample overhead : ℕ → ℤ) (t0 : ℤ) (i : ℕ) :
    sleepDur sample overhead t0 i
      = max 0 ((loopState sample overhead t0 i).2
          - (loopState sample overhead t0 i).1) ∧
    ((loopState sample overhead t0 i).2 ≤ (loopState sample overhead t0 i).1
      → sleepDur sample overhead t0 i = 0) := by
  constructor
  · rfl
  · intro hle
    simp only [sleepDur, goSleep, timeUntil]
    omega

/-- C7 witness: with zero samples and zero overhead at start instant 0, the
first launch instant is not in the future and the sleep is a no-op. -/
theorem sleep_exact_witness :
    ((loopState (fun _ => 0) (fun _ => 0) 0 0).2
        ≤ (loopState (fun _ => 0) (fun _ => 0) 0 0).1) ∧
    sleepDur (fun _ => 0) (fun _ => 0) 0 0 = 0 :=
  ⟨by decide,
    (sleep_exact (fun _ => 0) (fun _ => 0) 0 0).2 (by decide)⟩

/-- Observable events of one `poissonLoad.Execute` call: a sleep of the
driving goroutine for `d` nanoseconds, the launch (`wg.Start`) of action
`i`, the completion of action `i` (its goroutine returning and performing
`wg.Done`), and the return of the final `wg.Wait`. -/
inductive Ev where
  | sleep (d : ℤ)
  | start (i : ℕ)
  | done (i : ℕ)
  | waitRet
deriving DecidableEq

/-- The event sequence performed by the driving goroutine of
`poissonLoad.Execute`, starting at loop index `i` with `n` actions left and
loop state `s = (now, actionNextLaunch)`: each iteration sleeps until
`actionNextLaunch`, launches `actions[i]`, and advances the state by
`execStep`; after the last iteration the driving goroutine calls
`wg.Wait`, whose return is `Ev.waitRet`. -/
def driveTrace (sample overhead : ℕ → ℤ) : ℕ → ℕ → ℤ × ℤ → List Ev
  | _, 0, _ => [Ev.waitRet]
  | i, n + 1, s =>
      Ev.sleep (goSleep (timeUntil s.2 s.1)) :: Ev.start i ::
        driveTrace sample overhead (i + 1) n (execStep sample overhead i s)

/-- `poissonLoad.Execute` on `n` actions entered at wall-clock `t0`:
`actionNextLaunch` is seeded with `time.Now() = t0`. -/
def executeDrive (sample overhead : ℕ → ℤ) (n : ℕ) (t0 : ℤ) : List Ev :=
  driveTrace sample overhead 0 n (t0, t0)

/-- Indices of the actions launched in a run, in launch order. -/
def startsOf (r : List Ev) : List ℕ :=
  r.filterMap fun e => match e with | Ev.start i => some i | _ => none

/-- Indices of the actions whose completion (join) occurred in a run, in
completion order. -/
def donesOf (r : List Ev) : List ℕ :=
  r.filterMap fun e => match e with | Ev.done i => some i | _ => none

/-- Durations of the sleeps performed in a run. -/
def sleepsOf (r : List Ev) : List ℤ :=
  r.filterMap fun e => match e with | Ev.sleep d => some d | _ => none

/-- The `wait.Group` counter after a run: `Start` increments it and each
completion's `wg.Done` decrements it; `wg.Wait` returns only once it is
zero. -/
def wgBalance (r : List Ev) : ℤ :=
  ((startsOf r).length : ℤ) - ((donesOf r).length : ℤ)

lemma startsOf_cons_sleep (d : ℤ) (r : List Ev) :
    startsOf (Ev.sleep d :: r) = startsOf r := by
  simp [startsOf]

lemma startsOf_cons_start (i : ℕ) (r : List Ev) :
    startsOf (Ev.start i :: r) = i :: startsOf r := by
  simp [startsOf]

lemma startsOf_driveTrace (sample overhead : ℕ → ℤ) (n : ℕ) :
    ∀ (i : ℕ) (s : ℤ × ℤ),
      startsOf (driveTrace sample overhead i n s) = List.range' i n := by
  induction n with
  | zero => intro i s; simp [driveTrace, startsOf]
  | succ m ih =>
      intro i s
      rw [driveTrace, startsOf_cons_sleep, startsOf_cons_start, ih,
        List.range'_succ]

/-- C4: `Execute` launches each of the `n` supplied actions exactly once,
in input-sequence order: the launch indices of the driving trace are
exactly `0, 1, ..., n-1`. -/
theorem execute_launch_order (sample overhead : ℕ → ℤ) (n : ℕ) (t0 : ℤ) :
    startsOf (executeDrive sample overhead n t0) = List.range n := by
  rw [executeDrive, startsOf_driveTrace, List.range_eq_range']

/-- C5: when `wg.Wait` returns, every launched action has completed.  `q`
is the interleaving of the driving trace with the completion events of the
action goroutines, up to the instant `wg.Wait` returns: its launches are
the driving trace's launches, each action completes at most once and only
after being launched, and `wg.Wait` returns only with the counter at zero.
Then the completed joins are a permutation of the `n` launched indices, so
their counts agree and no launched action is still running. -/
theorem execute_joins_all (sample overhead : ℕ → ℤ) (n : ℕ) (t0 : ℤ)
    (q : List Ev)
    (hstart : startsOf q = startsOf (executeDrive sample overhead n t0))
    (hnodup : (donesOf q).Nodup)
    (hdone : ∀ i ∈ donesOf q, i ∈ startsOf q)
    (hwait : wgBalance q = 0) :
    (donesOf q).Perm (List.range n) ∧
    (donesOf q).length = (startsOf q).length := by
  have hs : startsOf q = List.range n := by
    rw [hstart, executeDrive, startsOf_driveTrace, List.range_eq_range']
  have hlen : (donesOf q).length = (startsOf q).length := by
    simp only [wgBalance] at hwait
    omega
  have hsub : donesOf q ⊆ List.range n := by
    intro a ha
    have := hdone a ha
    rwa [hs] at this
  have hsp : (donesOf q).Subperm (List.range n) :=
    List.subperm_of_subset hnodup hsub
  refine ⟨hsp.perm_of_length_le ?_, hlen⟩
  rw [List.length_range, hlen, hs, List.length_range]

/-- C5 witness: one action, launched and completed before `wg.Wait`
returns with balance zero; the joins are exactly the one launch. -/
theorem execute_joins_all_witness :
    (startsOf [Ev.sleep 0, Ev.start 0, Ev.done 0]
        = startsOf (executeDrive (fun _ => 0) (fun _ => 0) 1 0)) ∧
    (donesOf [Ev.sleep 0, Ev.start 0, Ev.done 0]).Nodup ∧
    (∀ i ∈ donesOf [Ev.sleep 0, Ev.start 0, Ev.done 0],
      i ∈ startsOf [Ev.sleep 0, Ev.start 0, Ev.done 0]) ∧
    wgBalance [Ev.sleep 0, Ev.start 0, Ev.done 0] = 0 ∧
    ((donesOf [Ev.sleep 0, Ev.start 0, Ev.done 0]).Perm (List.range 1) ∧
      (donesOf [Ev.sleep 0, Ev.start 0, Ev.done 0]).length
        = (startsOf [Ev.sleep 0, Ev.start 0, Ev.done 0]).length) :=
  ⟨by decide, by decide, by decide, by decide,
    execute_joins_all (fun _ => 0) (fun _ => 0) 1 0
      [Ev.sleep 0, Ev.start 0, Ev.done 0]
      (by decide) (by decide) (by decide) (by decide)⟩

/-- C8: with zero actions `Execute` performs no sleep and no launch, its
driving trace is just the immediate return of `wg.Wait`, and no
inter-arrival sample is drawn (the trace does not depend on the sample
stream or on the overhead stream). -/
theorem execute_empty (sample overhead : ℕ → ℤ) (t0 : ℤ) :
    executeDrive sample overhead 0 t0 = [Ev.waitRet] ∧
    sleepsOf (executeDrive sample overhead 0 t0) = [] ∧
    startsOf (executeDrive sample overhead 0 t0) = [] ∧
    ∀ sample₂ overhead₂ : ℕ → ℤ,
      executeDrive sample overhead 0 t0
        = executeDrive sample₂ overhead₂ 0 t0 :=
  ⟨rfl, rfl, rfl, fun _ _ => rfl⟩

end PoissonLoad

namespace EtcdMeasurement

/-- Modelled from the spec: `measurementutil.HistogramVec` lives outside
src/ (clusterloader2/pkg/measurement/util); the spec only calls these
"histogram-style summaries", so a histogram vector is kept abstract as a
list of labelled bucket counts. -/
def HistogramVec : Type := List (String × ℚ)

/-- Embedding of the `etcdMetrics` struct of etcd_metrics.go: four
histogram vectors and the maximum observed database size (`float64`,
modelled as a rational; its value is never computed on here). -/
structure EtcdMetricsData where
  backendCommitDuration : HistogramVec
  snapshotSaveTotalDuration : HistogramVec
  peerRoundTripTime : HistogramVec
  walFsyncDuration : HistogramVec
  maxDatabaseSize : ℚ

/-- The mutable state of one `etcdMetricsMeasurement`: whether the
background collector goroutine has been started, and the collected
metrics. -/
structure EtcdState where
  collecting : Bool
  metrics : EtcdMetricsData

/-- The string-typed measurement parameters of one `Execute` call
(`config.Params`); `none` means the key is absent. -/
structure MeasurementParams where
  action : Option String
  provider : Option String
  host : Option String
  waitTime : Option ℤ

/-- The cluster configuration defaults (`measurement.ClusterConfig`). -/
structure ClusterCfg where
  provider : String
  masterIP : String

/-- Modelled from the spec: `util.GetString` is outside src/; reading a
required parameter yields its string when present and an error when
absent. -/
def getString (v : Option String) (key : String) : Except String String :=
  match v with
  | some s => Except.ok s
  | none => Except.error ("missing parameter " ++ key)

/-- Modelled from the spec: `util.GetStringOrDefault` is outside src/;
reading an optional string parameter falls back to the given default. -/
def getStringOrDefault (v : Option String) (d : String) : String :=
  v.getD d

/-- Modelled from the spec: `util.GetDurationOrDefault` is outside src/;
reading an optional duration parameter falls back to the given default. -/
def getDurationOrDefault (v : Option ℤ) (d : ℤ) : ℤ :=
  v.getD d

/-- `time.Minute` in nanoseconds, the default `waitTime`. -/
def minuteNs : ℤ := 60000000000

/-- Embedding of `etcdMetricsMeasurement.Execute` from etcd_metrics.go.
The `gather` branch's `stopAndSummarize` performs SSH I/O; its outcome is
supplied by the oracle `gatherRes` (on success the freshly summarized
metrics, on failure the error it returns).  The result is the new
measurement state, the returned summary list, and the returned error. -/
def etcdExecute (gatherRes : Except String EtcdMetricsData)
    (cluster : ClusterCfg) (params : MeasurementParams) (s : EtcdState) :
    EtcdState × List EtcdMetricsData × Option String :=
  match getString params.action "action" with
  | Except.error e => (s, [], some e)
  | Except.ok action =>
      let _provider := getStringOrDefault params.provider cluster.provider
      let _host := getStringOrDefault params.host cluster.masterIP
      if action = "start" then
        let _waitTime := getDurationOrDefault params.waitTime minuteNs
        ({ s with collecting := true }, [], none)
      else if action = "gather" then
        match gatherRes with
        | Except.error e => ({ s with collecting := false }, [], some e)
        | Except.ok m => (⟨false, m⟩, [m], none)
      else (s, [], some ("unknown action " ++ action))

/-- C10: when the action parameter holds a string other than "start" and
"gather", `etcdMetricsMeasurement.Execute` returns an empty summary list
together with an error naming the unknown action, and leaves the
measurement state (the collected metrics included) unchanged. -/
theorem etcdExecute_unknown_action (gatherRes : Except String EtcdMetricsData)
    (cluster : ClusterCfg) (params : MeasurementParams) (s : EtcdState)
    (a : String) (ha : params.action = some a)
    (hstart : a ≠ "start") (hgather : a ≠ "gather") :
    etcdExecute gatherRes cluster params s
      = (s, [], some ("unknown action " ++ a)) := by
  simp [etcdExecute, getString, ha, hstart, hgather]

/-- C10 witness: a concrete configuration with action "bogus" yields the
unknown-action error, no summaries, and the untouched state. -/
theorem etcdExecute_unknown_action_witness :
    ((⟨some "bogus", none, none, none⟩ : MeasurementParams).action
        = some "bogus") ∧
    ("bogus" ≠ "start") ∧ ("bogus" ≠ "gather") ∧
    etcdExecute (Except.error "ssh failed") ⟨"gce", "1.2.3.4"⟩
        ⟨some "bogus", none, none, none⟩
        ⟨false, ⟨[], [], [], [], 0⟩⟩
      = (⟨false, ⟨[], [], [], [], 0⟩⟩, [], some ("unknown action bogus")) :=
  ⟨rfl, by decide, by decide,
    etcdExecute_unknown_action (Except.error "ssh failed") ⟨"gce", "1.2.3.4"⟩
      ⟨some "bogus", none, none, none⟩ ⟨false, ⟨[], [], [], [], 0⟩⟩
      "bogus" rfl (by decide) (by decide)⟩

end EtcdMeasurement
